import Mathlib

/-!
Verification of the RAG query-retrieval system's core components against
their specification: the vector store with document-hash caching
(src/services/vector_store.py), the multi-provider fallback gateway
(src/services/multi_api_service.py), and the query orchestrator
(src/services/query_processor.py).

Embedding conventions: Python floats are modelled as rationals (exact
arithmetic) except where a square root is required, where reals are used;
wall-clock time is an explicit rational parameter; exceptions are
modelled with Except; network collaborators (embedding / generation
backends) are oracle parameters.
-/

namespace RagSpec

/-! ## Vector store (src/services/vector_store.py) -/

/-- A document chunk: text content plus an optional embedding vector,
as in models/schemas.py DocumentChunk (only the fields the store uses). -/
structure Chunk where
  content : String
  embedding : Option (List ℚ)
deriving DecidableEq

/-- The mutable state of VectorStore: the chunk list, the FAISS index
contents (one row per inserted vector, in insertion order), and the
recorded document hash used for caching. -/
structure VSState where
  chunks : List Chunk
  index : List (List ℚ)
  documentHash : Option String
deriving DecidableEq

/-- Fresh store as built by VectorStore.__init__ / initialize. -/
def initVS : VSState := { chunks := [], index := [], documentHash := none }

/-- Python truthiness of the optional document_hash argument
(None and the empty string are falsy). -/
def truthyHash : Option String → Bool
  | none => false
  | some s => !(s == "")

/-- VectorStore.add_documents. The embedding service call is the oracle
`embed`; the second result component records the list of batch texts the
embedding service was invoked with (empty means no embedding work).
Mirrors the source: empty chunk list returns early; a truthy incoming
hash equal to the recorded hash with a non-empty chunk store skips
re-embedding; otherwise the store is cleared, all chunk texts are
embedded in one call, embeddings are attached to the chunks, the index
is rebuilt, and the hash is recorded. -/
def add_documents (embed : List String → List (List ℚ)) (newChunks : List Chunk)
    (documentHash : Option String) (st : VSState) : VSState × List (List String) :=
  if newChunks = [] then (st, [])
  else if truthyHash documentHash = true ∧ st.documentHash = documentHash ∧
      st.chunks ≠ [] then (st, [])
  else
    let texts := newChunks.map Chunk.content
    let embeddings := embed texts
    let chunks := List.zipWith (fun c e => { c with embedding := some e }) newChunks embeddings
    ({ chunks := chunks, index := embeddings, documentHash := documentHash }, [texts])

/-! ## Similarity search (src/services/vector_store.py VectorStore.search) -/

/-- Inner product of two vectors. -/
def dot (u v : List ℚ) : ℚ := (List.zipWith (fun a b => a * b) u v).sum

/-- Ranking order on (original index, score) pairs: higher score first,
ties broken by lower original index. -/
def searchRel (a b : Nat × ℚ) : Prop := b.2 < a.2 ∨ (a.2 = b.2 ∧ a.1 ≤ b.1)

instance : DecidableRel searchRel := fun a b => by
  unfold searchRel; infer_instance

instance : IsTotal (Nat × ℚ) searchRel where
  total a b := by
    unfold searchRel
    rcases lt_trichotomy a.2 b.2 with h | h | h
    · exact Or.inr (Or.inl h)
    · rcases Nat.le_total a.1 b.1 with hn | hn
      · exact Or.inl (Or.inr ⟨h, hn⟩)
      · exact Or.inr (Or.inr ⟨h.symm, hn⟩)
    · exact Or.inl (Or.inl h)

instance : IsTrans (Nat × ℚ) searchRel where
  trans a b c hab hbc := by
    unfold searchRel at *
    rcases hab with h1 | ⟨h1, h1n⟩ <;> rcases hbc with h2 | ⟨h2, h2n⟩
    · exact Or.inl (h2.trans h1)
    · exact Or.inl (h2 ▸ h1)
    · exact Or.inl (h1 ▸ h2)
    · exact Or.inr ⟨h1.trans h2, h1n.trans h2n⟩

/-- Modelled from the spec: the FAISS IndexFlatIP.search call is external
library code absent from src/; per the spec's Vector Index contract it
computes the inner product between the query and every stored vector and
returns the k highest by score, ties broken by lowest original index
(stable order), in descending order. -/
def indexSearch (index : List (List ℚ)) (q : List ℚ) (k : Nat) : List (Nat × ℚ) :=
  (List.insertionSort searchRel (index.map (dot q)).enum).take k

/-- A search result as built by VectorStore.search: chunk index,
similarity score, 1-based rank. -/
structure SearchRes where
  idx : Nat
  score : ℚ
  rank : Nat
deriving DecidableEq

/-- VectorStore.search given the already-embedded query vector: returns
[] on an empty chunk store, otherwise searches the index with k clamped
to the chunk count and keeps results whose index is in range. -/
def search (st : VSState) (q : List ℚ) (topK : Nat) : List SearchRes :=
  if st.chunks = [] then []
  else
    (indexSearch st.index q (min topK st.chunks.length)).enum.filterMap fun ie =>
      if ie.2.1 < st.chunks.length then
        some { idx := ie.2.1, score := ie.2.2, rank := ie.1 + 1 }
      else none

/-- A concrete three-chunk store with a score tie, used as a witness input. -/
def exampleStore : VSState :=
  { chunks := [{ content := "a", embedding := none },
      { content := "b", embedding := none },
      { content := "c", embedding := none }],
    index := [[2], [2], [1]], documentHash := none }

/-! ## Provider fallback gateway (src/services/multi_api_service.py) -/

/-- Provider type tags as produced by MultiAPIService.setup_providers. -/
inductive PType where
  | gemini
  | openai
  | perplexity
  | huggingface
deriving DecidableEq

/-- A provider descriptor: stable name and type tag (the credential and
model fields play no role in the dispatch logic). -/
structure Provider where
  name : String
  ptype : PType
deriving DecidableEq

instance : Inhabited Provider := ⟨⟨"", PType.gemini⟩⟩

/-- The rate_limit_cooldown dict: provider name to expiry timestamp
(time.time values modelled as rationals). -/
abbrev Cooldowns := List (String × ℚ)

/-- Dict lookup. -/
def lookupCd (cds : Cooldowns) (k : String) : Option ℚ :=
  (cds.find? fun e => e.1 == k).map Prod.snd

/-- Dict key deletion. -/
def eraseCd (cds : Cooldowns) (k : String) : Cooldowns :=
  cds.filter fun e => !(e.1 == k)

/-- Dict key assignment. -/
def insertCd (cds : Cooldowns) (k : String) (v : ℚ) : Cooldowns :=
  eraseCd cds k ++ [(k, v)]

/-- MultiAPIService.is_provider_available: whether the provider may be
tried now, together with the cooldown table after the lazy eviction of an
expired entry performed by the check. -/
def is_provider_available (cds : Cooldowns) (p : Provider) (now : ℚ) :
    Bool × Cooldowns :=
  match lookupCd cds p.name with
  | none => (true, cds)
  | some t => if now < t then (false, cds) else (true, eraseCd cds p.name)

/-- MultiAPIService.set_provider_cooldown (cooldown_minutes defaults to 5). -/
def set_provider_cooldown (cds : Cooldowns) (p : Provider) (now : ℚ)
    (cooldownMinutes : ℚ) : Cooldowns :=
  insertCd cds p.name (now + cooldownMinutes * 60)

/-- The rate-limit indicator substrings the except-handlers test against
the lowercased error message. -/
def rateLimitIndicators : List String :=
  ["rate limit", "quota", "429", "too many requests"]

/-- str.lower modelled characterwise. -/
def lowerStr (s : String) : String := ⟨s.data.map Char.toLower⟩

/-- Python substring containment (needle in hay). -/
def hasSubstr : List Char → List Char → Bool
  | [], needle => needle.isEmpty
  | c :: t, needle => needle.isPrefixOf (c :: t) || hasSubstr t needle

/-- The rate-limit classification in the except-handlers of generate_text
and generate_embeddings:
any(term in error_msg for term in [...]) on the lowercased message. -/
def is_rate_limit_error (msg : String) : Bool :=
  rateLimitIndicators.any fun term => hasSubstr (lowerStr msg).data term.data

/-- Gateway mutable state: the rotation cursor (current_provider_index)
and the cooldown table. -/
structure GwState where
  cursor : Nat
  cooldowns : Cooldowns
deriving DecidableEq

/-- Fresh gateway state as set by MultiAPIService.__init__. -/
def initGw : GwState := { cursor := 0, cooldowns := [] }

/-- The terminal message of the exception raised when the provider loop
exhausts. -/
def allProvidersFailedMsg : String := "All API providers failed or are rate limited"

deriving instance DecidableEq for Except

/-- The outcome of a dispatch call: its result, the final gateway state,
and the registry indices whose capability was actually invoked, in order. -/
structure DispatchOut where
  result : Except String String
  state : GwState
  trace : List Nat
deriving DecidableEq

/-- The provider currently selected by the cursor. -/
def provAt (providers : List Provider) (c : Nat) : Provider :=
  providers.getD (c % providers.length) default

/-- The provider loop shared by generate_text and generate_embeddings:
one iteration per fuel unit (the source iterates len(api_providers)
times). `attempt i` is the outcome of invoking the capability of the
provider at registry index i; `skip p` holds for a provider lacking the
requested capability (embeddings: Perplexity). Each iteration first
checks availability (lazily evicting an expired cooldown), skipping an
unavailable or capability-less provider with the cursor advanced; an
invocation returns on success, while on failure the error message is
classified and a rate-limited provider is put into a 5 minute cooldown,
after which the cursor advances and the loop continues. Exhaustion
raises the terminal all-providers-failed error. -/
def dispatchLoop (providers : List Provider) (skip : Provider → Bool)
    (attempt : Nat → Except String String) (now : ℚ) :
    Nat → GwState → List Nat → DispatchOut
  | 0, st, tr => ⟨.error allProvidersFailedMsg, st, tr⟩
  | fuel + 1, st, tr =>
    match is_provider_available st.cooldowns (provAt providers st.cursor) now with
    | (false, cds) =>
      dispatchLoop providers skip attempt now fuel
        ⟨(st.cursor + 1) % providers.length, cds⟩ tr
    | (true, cds) =>
      if skip (provAt providers st.cursor) = true then
        dispatchLoop providers skip attempt now fuel
          ⟨(st.cursor + 1) % providers.length, cds⟩ tr
      else
        match attempt (st.cursor % providers.length) with
        | .ok r => ⟨.ok r, ⟨st.cursor, cds⟩, tr ++ [st.cursor % providers.length]⟩
        | .error e =>
          dispatchLoop providers skip attempt now fuel
            ⟨(st.cursor + 1) % providers.length,
             if is_rate_limit_error e = true then
               set_provider_cooldown cds (provAt providers st.cursor) now 5
             else cds⟩
            (tr ++ [st.cursor % providers.length])

/-- MultiAPIService.generate_text: the local LLM is tried first when
available and its success is returned directly; otherwise the provider
loop runs over the whole registry. -/
def generate_text (providers : List Provider) (attempt : Nat → Except String String)
    (localAvailable : Bool) (localResult : Except String String) (now : ℚ)
    (st : GwState) : DispatchOut :=
  if localAvailable = true then
    match localResult with
    | .ok a => ⟨.ok a, st, []⟩
    | .error _ =>
      dispatchLoop providers (fun _ => false) attempt now providers.length st []
  else dispatchLoop providers (fun _ => false) attempt now providers.length st []

/-- MultiAPIService.generate_embeddings: like generate_text, except a
Perplexity provider supplies no embedding capability and is skipped with
the cursor advanced. -/
def generate_embeddings (providers : List Provider)
    (attempt : Nat → Except String String)
    (localAvailable : Bool) (localResult : Except String String) (now : ℚ)
    (st : GwState) : DispatchOut :=
  if localAvailable = true then
    match localResult with
    | .ok a => ⟨.ok a, st, []⟩
    | .error _ =>
      dispatchLoop providers (fun p => p.ptype == PType.perplexity) attempt now
        providers.length st []
  else
    dispatchLoop providers (fun p => p.ptype == PType.perplexity) attempt now
      providers.length st []

/-! ## Embedding normalization (src/services/multi_api_service.py
_generate_gemini_embeddings, src/services/embedding_service.py
_encode_with_gemini) -/

/-- Euclidean norm of a vector row, np.linalg.norm. -/
noncomputable def l2norm (v : List ℝ) : ℝ :=
  Real.sqrt ((v.map fun x => x * x).sum)

/-- One row of `embeddings_array / (norms + 1e-8)`: every component is
divided by the row's L2 norm plus 1e-8. -/
noncomputable def normalizeRow (v : List ℝ) : List ℝ :=
  v.map fun x => x / (l2norm v + 1 / 100000000)

/-- The whole batch normalization applied row-wise before insertion. -/
noncomputable def normalizeBatch (rows : List (List ℝ)) : List (List ℝ) :=
  rows.map normalizeRow

/-! ## Query orchestrator (src/services/query_processor.py) -/

/-- Python whitespace characters (the ASCII ones regex \s matches). -/
def pyWs (c : Char) : Bool :=
  c == ' ' || c == '\t' || c == '\n' || c == '\r' || c == '\x0b' || c == '\x0c'

/-- re.sub(r'^(Answer:|Response:)\s*', '', answer, flags=IGNORECASE):
case-insensitively remove one leading "Answer:" or "Response:" and the
whitespace run after it. -/
def strip_answer_head (l : List Char) : List Char :=
  if (l.take 7).map Char.toLower = "answer:".data then (l.drop 7).dropWhile pyWs
  else if (l.take 9).map Char.toLower = "response:".data then
    (l.drop 9).dropWhile pyWs
  else l

/-- Run-collapsing: every maximal run of characters satisfying p is
replaced by a single space (the Boolean flag tracks whether the previous
character was inside a run). -/
def collapseAux (p : Char → Bool) : Bool → List Char → List Char
  | _, [] => []
  | prev, c :: cs =>
    if p c then
      if prev then collapseAux p true cs else ' ' :: collapseAux p true cs
    else c :: collapseAux p false cs

/-- re.sub of one-or-more p-characters by a single space. -/
def collapseRuns (p : Char → Bool) (l : List Char) : List Char :=
  collapseAux p false l

/-- answer.endswith(('.', '!', '?')). -/
def endsPunct (l : List Char) : Bool :=
  l.getLast? == some '.' || l.getLast? == some '!' || l.getLast? == some '?'

/-- Append a final period when the non-empty answer lacks terminal
punctuation. -/
def ensureEnd (l : List Char) : List Char :=
  if l ≠ [] ∧ endsPunct l = false then l ++ ['.'] else l

/-- str.lstrip(). -/
def lstripWs (l : List Char) : List Char := l.dropWhile pyWs

/-- str.rstrip(). -/
def rstripWs (l : List Char) : List Char := (l.reverse.dropWhile pyWs).reverse

/-- str.strip(). -/
def pyStrip (l : List Char) : List Char := rstripWs (lstripWs l)

/-- QueryProcessor._post_process_answer on the character list: strip a
leading Answer:/Response: prefix, collapse newline runs, collapse
whitespace runs, ensure terminal punctuation, strip. -/
def post_process_answer_chars (l : List Char) : List Char :=
  pyStrip (ensureEnd (collapseRuns pyWs
    (collapseRuns (fun c => c == '\n') (strip_answer_head l))))

/-- QueryProcessor._post_process_answer. -/
def post_process_answer (s : String) : String := ⟨post_process_answer_chars s.data⟩

/-- str.strip() on strings. -/
def pyStripStr (s : String) : String := ⟨pyStrip s.data⟩

/-- QueryProcessor._generate_answer given the outcome of the multi-API
generate_text call and (if that failed) the outcome of the direct Gemini
generate_content fallback (whose text may be empty): multi-API success is
post-processed; direct success with non-empty text is stripped and
post-processed; an empty direct response or a direct failure yields the
corresponding built-in apology. No branch raises. -/
def generate_answer (genMulti : Except String String)
    (genDirect : Except String String) : String :=
  match genMulti with
  | .ok a => post_process_answer a
  | .error _ =>
    match genDirect with
    | .ok t =>
      if t ≠ "" then post_process_answer (pyStripStr t)
      else "I apologize, but I couldn\x27t generate a response for your query."
    | .error _ =>
      "I apologize, but I\x27m unable to generate an answer at this time due to a technical issue."

/-- The body of QueryProcessor.process_query (the code inside the try):
preprocess the query, fetch relevant context (the fallible retrieval
collaborator), fall back to lexical extraction over the raw document text
when the context is empty and document text is truthy, then generate the
answer. -/
def process_query_body (preprocess : String → String)
    (relevantContext : String → Except String String)
    (extractSections : String → String → String)
    (genMulti genDirect : String → String → Except String String)
    (query : String) (documentText : Option String) : Except String String := do
  let pq := preprocess query
  let ctx ← relevantContext pq
  let ctx2 := if ctx = "" ∧ truthyHash documentText = true then
      extractSections query (documentText.getD "")
    else ctx
  pure (generate_answer (genMulti query ctx2) (genDirect query ctx2))

/-- The fixed prefix of process_query's except-handler message. -/
def processErrorApology (e : String) : String :=
  "I apologize, but I encountered an error while processing your query: " ++ e

/-- QueryProcessor.process_query: the try body with every exception
converted into the apologetic answer string. -/
def process_query (preprocess : String → String)
    (relevantContext : String → Except String String)
    (extractSections : String → String → String)
    (genMulti genDirect : String → String → Except String String)
    (query : String) (documentText : Option String) : String :=
  match process_query_body preprocess relevantContext extractSections genMulti
    genDirect query documentText with
  | .ok a => a
  | .error e => processErrorApology e

end RagSpec

namespace RagSpec

/-! ## General helper lemmas -/

theorem filterMap_if_eq_map {α β : Type} (P : α → Prop) [DecidablePred P] (f : α → β) :
    ∀ l : List α, (∀ x ∈ l, P x) →
      (l.filterMap fun x => if P x then some (f x) else none) = l.map f
  | [], _ => rfl
  | a :: l, h => by
    rw [List.filterMap_cons, if_pos (h a (by simp)), List.map_cons,
      filterMap_if_eq_map P f l fun x hx => h x (by simp [hx])]

theorem mem_of_getElem?_eq {α : Type} {l : List α} {i : Nat} {a : α}
    (h : l[i]? = some a) : a ∈ l := by
  obtain ⟨hi, hv⟩ := List.getElem?_eq_some.mp h
  exact hv ▸ List.getElem_mem hi

/-! ## Theorems: C2 -/

/-- The sorted score list is pairwise strictly ordered: the ranking
relation holds and the original indices differ. -/
theorem pairwise_strict_sorted (index : List (List ℚ)) (q : List ℚ) :
    List.Pairwise (fun a b : Nat × ℚ => searchRel a b ∧ a.1 ≠ b.1)
      (List.insertionSort searchRel (index.map (dot q)).enum) := by
  have hs : List.Pairwise searchRel
      (List.insertionSort searchRel (index.map (dot q)).enum) :=
    List.sorted_insertionSort searchRel _
  have h1 : List.Pairwise (fun a b : Nat × ℚ => a.1 ≠ b.1) ((index.map (dot q)).enum) := by
    have hn := List.nodup_enum_map_fst (index.map (dot q))
    rw [List.Nodup, List.pairwise_map] at hn
    exact hn
  have hne : List.Pairwise (fun a b : Nat × ℚ => a.1 ≠ b.1)
      (List.insertionSort searchRel (index.map (dot q)).enum) :=
    ((List.perm_insertionSort searchRel _).pairwise_iff fun hxy => Ne.symm hxy).mpr h1
  exact hs.and hne

/-- C1: loading a document a second time with the same content hash while
the chunk store is non-empty performs no embedding work and leaves the
stored chunks, index contents and recorded hash exactly as the first call
left them. Starting from a fresh store, the first call embeds exactly one
batch and the second call embeds nothing and does not change the state. -/
theorem add_documents_idempotent_cache
    (embed : List String → List (List ℚ)) (cs cs2 : List Chunk) (h : String)
    (hcs : cs ≠ []) (hh : h ≠ "")
    (hlen : (embed (cs.map Chunk.content)).length = cs.length) :
    (add_documents embed cs2 (some h) (add_documents embed cs (some h) initVS).1).1 =
      (add_documents embed cs (some h) initVS).1 ∧
    (add_documents embed cs2 (some h) (add_documents embed cs (some h) initVS).1).2 = [] ∧
    (add_documents embed cs (some h) initVS).2 = [cs.map Chunk.content] := by
  have hth : truthyHash (some h) = true := by
    simp [truthyHash, hh]
  have hfirst : add_documents embed cs (some h) initVS =
      ({ chunks := List.zipWith (fun c e => { c with embedding := some e }) cs
            (embed (cs.map Chunk.content)),
         index := embed (cs.map Chunk.content),
         documentHash := some h }, [cs.map Chunk.content]) := by
    unfold add_documents
    rw [if_neg hcs, if_neg]
    rintro ⟨-, hdh, -⟩
    simp [initVS] at hdh
  refine ⟨?_, ?_, by rw [hfirst]⟩ <;> rw [hfirst] <;>
    by_cases hcs2 : cs2 = []
  · simp [add_documents, hcs2]
  · have hne : List.zipWith (fun c e => { c with embedding := some e }) cs
        (embed (cs.map Chunk.content)) ≠ [] := by
      have : (List.zipWith (fun c e => { c with embedding := some e : Chunk }) cs
          (embed (cs.map Chunk.content))).length = cs.length := by
        rw [List.length_zipWith, hlen, Nat.min_self]
      intro hnil
      rw [hnil] at this
      exact hcs (List.length_eq_zero.mp this.symm)
    unfold add_documents
    rw [if_neg hcs2, if_pos ⟨hth, rfl, hne⟩]
  · simp [add_documents, hcs2]
  · have hne : List.zipWith (fun c e => { c with embedding := some e }) cs
        (embed (cs.map Chunk.content)) ≠ [] := by
      have : (List.zipWith (fun c e => { c with embedding := some e : Chunk }) cs
          (embed (cs.map Chunk.content))).length = cs.length := by
        rw [List.length_zipWith, hlen, Nat.min_self]
      intro hnil
      rw [hnil] at this
      exact hcs (List.length_eq_zero.mp this.symm)
    unfold add_documents
    rw [if_neg hcs2, if_pos ⟨hth, rfl, hne⟩]

/-- C2: on a non-empty store whose index parallels the chunk list, search
returns exactly min(k, size) results, in strictly descending score order
with ties broken by ascending original index, every result carries the
inner product of the query with the stored vector at its index, and every
stored vector not among the results scores no better (strictly worse, or
equal with a larger index) than every returned result. -/
theorem search_topk_correct (st : VSState) (q : List ℚ) (topK : Nat)
    (hne : st.chunks ≠ []) (hlen : st.index.length = st.chunks.length) :
    (search st q topK).length = min topK st.chunks.length ∧
    List.Chain' (fun a b => b.score < a.score ∨ (a.score = b.score ∧ a.idx < b.idx))
      (search st q topK) ∧
    (∀ r ∈ search st q topK, ∃ v, st.index[r.idx]? = some v ∧ r.score = dot q v) ∧
    (∀ r ∈ search st q topK, ∀ j < st.index.length,
      (∀ r2 ∈ search st q topK, r2.idx ≠ j) →
      ∃ v, st.index[j]? = some v ∧
        (dot q v < r.score ∨ (dot q v = r.score ∧ r.idx < j))) := by
  have hperm := List.perm_insertionSort searchRel (st.index.map (dot q)).enum
  have hslen : (List.insertionSort searchRel (st.index.map (dot q)).enum).length =
      st.chunks.length := by
    rw [hperm.length_eq, List.enum_length, List.length_map, hlen]
  have hidx : ∀ p ∈ List.insertionSort searchRel (st.index.map (dot q)).enum,
      p.1 < st.index.length ∧ (st.index.map (dot q))[p.1]? = some p.2 := by
    intro p hp
    have h2 := List.mem_enum_iff_getElem?.mp (hperm.mem_iff.mp hp)
    refine ⟨?_, h2⟩
    have := (List.getElem?_eq_some.mp h2).1
    rwa [List.length_map] at this
  have htk : ∀ p ∈ List.take (min topK st.chunks.length)
      (List.insertionSort searchRel (st.index.map (dot q)).enum),
      p.1 < st.index.length ∧ (st.index.map (dot q))[p.1]? = some p.2 :=
    fun p hp => hidx p (List.mem_of_mem_take hp)
  have hbridge : search st q topK =
      (List.take (min topK st.chunks.length)
        (List.insertionSort searchRel (st.index.map (dot q)).enum)).enum.map
        fun ie => { idx := ie.2.1, score := ie.2.2, rank := ie.1 + 1 } := by
    unfold search indexSearch
    rw [if_neg hne]
    refine filterMap_if_eq_map (fun ie : Nat × Nat × ℚ => ie.2.1 < st.chunks.length)
      (fun ie : Nat × Nat × ℚ =>
        ({ idx := ie.2.1, score := ie.2.2, rank := ie.1 + 1 } : SearchRes)) _ ?_
    intro ie hie
    have hmem : ie.2 ∈ List.take (min topK st.chunks.length)
        (List.insertionSort searchRel (st.index.map (dot q)).enum) :=
      mem_of_getElem?_eq (List.mem_enum_iff_getElem?.mp hie)
    exact hlen ▸ (htk ie.2 hmem).1
  have hmemres : ∀ r ∈ search st q topK, ∃ p,
      p ∈ List.take (min topK st.chunks.length)
        (List.insertionSort searchRel (st.index.map (dot q)).enum) ∧
      r.idx = p.1 ∧ r.score = p.2 := by
    intro r hr
    rw [hbridge] at hr
    obtain ⟨ie, hie, rfl⟩ := List.mem_map.mp hr
    exact ⟨ie.2, mem_of_getElem?_eq (List.mem_enum_iff_getElem?.mp hie), rfl, rfl⟩
  refine ⟨?_, ?_, ?_, ?_⟩
  · rw [hbridge, List.length_map, List.enum_length, List.length_take, hslen]
    omega
  · rw [hbridge, List.chain'_map]
    have hch : List.Chain' (fun a b : Nat × ℚ => searchRel a b ∧ a.1 ≠ b.1)
        (List.take (min topK st.chunks.length)
          (List.insertionSort searchRel (st.index.map (dot q)).enum)) :=
      (((pairwise_strict_sorted st.index q).sublist (List.take_sublist _ _)).chain' : _)
    have hch2 : List.Chain'
        (fun a b : Nat × (Nat × ℚ) => searchRel a.2 b.2 ∧ a.2.1 ≠ b.2.1)
        (List.take (min topK st.chunks.length)
          (List.insertionSort searchRel (st.index.map (dot q)).enum)).enum := by
      refine (@List.chain'_map (Nat × ℚ) (Nat × (Nat × ℚ))
        (fun a b : Nat × ℚ => searchRel a b ∧ a.1 ≠ b.1) Prod.snd _).mp ?_
      rw [List.enum_map_snd]
      exact hch
    refine hch2.imp ?_
    rintro a b ⟨hrel, hne2⟩
    have hrel2 : b.2.2 < a.2.2 ∨ (a.2.2 = b.2.2 ∧ a.2.1 ≤ b.2.1) := hrel
    rcases hrel2 with h | ⟨h1, h2⟩
    · exact Or.inl h
    · exact Or.inr ⟨h1, lt_of_le_of_ne h2 hne2⟩
  · intro r hr
    obtain ⟨p, hp, hri, hrs⟩ := hmemres r hr
    obtain ⟨hplt, hpv⟩ := htk p hp
    rw [List.getElem?_map] at hpv
    cases hw : st.index[p.1]? with
    | none => rw [hw] at hpv; simp at hpv
    | some w =>
      rw [hw] at hpv
      simp only [Option.map_some', Option.some.injEq] at hpv
      exact ⟨w, by rw [hri]; exact hw, hrs.trans hpv.symm⟩
  · intro r hr j hj hnotin
    obtain ⟨p, hp, hri, hrs⟩ := hmemres r hr
    have hjlt : j < (st.index.map (dot q)).length := by rwa [List.length_map]
    obtain ⟨sj, hsj⟩ : ∃ s, (st.index.map (dot q))[j]? = some s := by
      rw [List.getElem?_eq_getElem hjlt]
      exact ⟨_, rfl⟩
    have hemem : ((j, sj) : Nat × ℚ) ∈
        List.insertionSort searchRel (st.index.map (dot q)).enum :=
      hperm.mem_iff.mpr (List.mem_enum_iff_getElem?.mpr hsj)
    have hnotake : ((j, sj) : Nat × ℚ) ∉
        List.take (min topK st.chunks.length)
          (List.insertionSort searchRel (st.index.map (dot q)).enum) := by
      intro hin
      obtain ⟨i0, hi0, hv⟩ := List.mem_iff_getElem.mp hin
      have hie : ((i0, j, sj) : Nat × Nat × ℚ) ∈
          (List.take (min topK st.chunks.length)
            (List.insertionSort searchRel (st.index.map (dot q)).enum)).enum :=
        List.mk_mem_enum_iff_getElem?.mpr (by rw [List.getElem?_eq_getElem hi0, hv])
      have hmem2 : ({ idx := j, score := sj, rank := i0 + 1 } : SearchRes) ∈
          search st q topK := by
        rw [hbridge]
        exact List.mem_map.mpr ⟨(i0, j, sj), hie, rfl⟩
      exact hnotin _ hmem2 rfl
    have hedrop : ((j, sj) : Nat × ℚ) ∈
        List.drop (min topK st.chunks.length)
          (List.insertionSort searchRel (st.index.map (dot q)).enum) := by
      have hsplit : ((j, sj) : Nat × ℚ) ∈
          List.take (min topK st.chunks.length)
            (List.insertionSort searchRel (st.index.map (dot q)).enum) ++
          List.drop (min topK st.chunks.length)
            (List.insertionSort searchRel (st.index.map (dot q)).enum) := by
        rw [List.take_append_drop]
        exact hemem
      rcases List.mem_append.mp hsplit with h2 | h2
      · exact absurd h2 hnotake
      · exact h2
    have hpw := pairwise_strict_sorted st.index q
    rw [← List.take_append_drop (min topK st.chunks.length)
      (List.insertionSort searchRel (st.index.map (dot q)).enum)] at hpw
    obtain ⟨-, -, hcross⟩ := List.pairwise_append.mp hpw
    obtain ⟨hrel, hne2⟩ := hcross p hp _ hedrop
    have hrel2 : sj < p.2 ∨ (p.2 = sj ∧ p.1 ≤ j) := hrel
    rw [List.getElem?_map] at hsj
    cases hw : st.index[j]? with
    | none => rw [hw] at hsj; simp at hsj
    | some v =>
      rw [hw] at hsj
      simp only [Option.map_some', Option.some.injEq] at hsj
      refine ⟨v, rfl, ?_⟩
      rcases hrel2 with h2 | ⟨h1, h2⟩
      · exact Or.inl (by rw [hsj, hrs]; exact h2)
      · refine Or.inr ⟨by rw [hsj, hrs, h1], ?_⟩
        rw [hri]
        exact lt_of_le_of_ne h2 hne2

/-- Witness for C2 at a concrete store with a score tie. -/
theorem search_topk_correct_witness :
    (exampleStore.chunks ≠ [] ∧
      exampleStore.index.length = exampleStore.chunks.length) ∧
    ((search exampleStore [1] 2).length = min 2 exampleStore.chunks.length ∧
    List.Chain' (fun a b => b.score < a.score ∨ (a.score = b.score ∧ a.idx < b.idx))
      (search exampleStore [1] 2)) := by
  have h1 : exampleStore.chunks ≠ [] := by decide
  have h2 : exampleStore.index.length = exampleStore.chunks.length := by decide
  obtain ⟨hl, hc, -, -⟩ := search_topk_correct exampleStore [1] 2 h1 h2
  exact ⟨⟨h1, h2⟩, hl, hc⟩

/-! ## Cooldown table lemmas -/

theorem lookupCd_eraseCd_ne (cds : Cooldowns) (k k2 : String) (h : k ≠ k2) :
    lookupCd (eraseCd cds k2) k = lookupCd cds k := by
  induction cds with
  | nil => rfl
  | cons a t ih =>
    cases hbeq : (a.1 == k2) with
    | false =>
      have hstep : eraseCd (a :: t) k2 = a :: eraseCd t k2 := by
        simp [eraseCd, List.filter_cons, hbeq]
      rw [hstep]
      cases hk : (a.1 == k) with
      | true => simp [lookupCd, List.find?_cons, hk]
      | false =>
        simp only [lookupCd, List.find?_cons, hk]
        exact ih
    | true =>
      have hstep : eraseCd (a :: t) k2 = eraseCd t k2 := by
        simp [eraseCd, List.filter_cons, hbeq]
      have hk : (a.1 == k) = false := by
        rw [beq_iff_eq] at hbeq
        simp only [beq_eq_false_iff_ne]
        rw [hbeq]
        exact fun hh => h hh.symm
      rw [hstep, ih]
      simp only [lookupCd, List.find?_cons, hk]

theorem lookupCd_eraseCd_self (cds : Cooldowns) (k : String) :
    lookupCd (eraseCd cds k) k = none := by
  induction cds with
  | nil => rfl
  | cons a t ih =>
    cases hbeq : (a.1 == k) with
    | true =>
      have hstep : eraseCd (a :: t) k = eraseCd t k := by
        simp [eraseCd, List.filter_cons, hbeq]
      rw [hstep]
      exact ih
    | false =>
      have hstep : eraseCd (a :: t) k = a :: eraseCd t k := by
        simp [eraseCd, List.filter_cons, hbeq]
      rw [hstep]
      simp only [lookupCd, List.find?_cons, hbeq]
      exact ih

theorem lookupCd_insertCd_self (cds : Cooldowns) (k : String) (v : ℚ) :
    lookupCd (insertCd cds k v) k = some v := by
  unfold insertCd lookupCd
  rw [List.find?_append]
  have h1 : List.find? (fun e : String × ℚ => e.1 == k) (eraseCd cds k) = none := by
    have h0 := lookupCd_eraseCd_self cds k
    unfold lookupCd at h0
    exact Option.map_eq_none'.mp h0
  rw [h1]
  simp [List.find?]

theorem lookupCd_insertCd_ne (cds : Cooldowns) (k k2 : String) (v : ℚ) (h : k ≠ k2) :
    lookupCd (insertCd cds k2 v) k = lookupCd cds k := by
  have h2 : List.find? (fun e : String × ℚ => e.1 == k) [(k2, v)] = none := by
    simp only [List.find?]
    have : (k2 == k) = false := by
      simp only [beq_eq_false_iff_ne]
      exact fun hh => h hh.symm
    rw [this]
  have h3 := lookupCd_eraseCd_ne cds k k2 h
  unfold insertCd lookupCd
  rw [List.find?_append, h2, Option.or_none]
  unfold lookupCd at h3
  exact h3

/-- The availability check leaves the lookup of every other provider name
unchanged (it evicts at most its own provider's entry). -/
theorem lookupCd_avail_preserved (cds : Cooldowns) (p : Provider) (now : ℚ)
    (k : String) (h : k ≠ p.name) :
    lookupCd (is_provider_available cds p now).2 k = lookupCd cds k := by
  unfold is_provider_available
  cases hl : lookupCd cds p.name with
  | none => rfl
  | some t =>
    by_cases ht : now < t
    · simp [ht]
    · simp [ht, lookupCd_eraseCd_ne cds k p.name h]

/-! ## Theorems: C3 -/

/-- While a provider name is cooling (now strictly before its expiry),
the provider loop never invokes any provider of that name, and the
cooldown entry survives the whole loop. -/
theorem dispatchLoop_cooldown_invariant (providers : List Provider)
    (skip : Provider → Bool) (attempt : Nat → Except String String)
    (now texp : ℚ) (pname : String) (hnow : now < texp) :
    ∀ (fuel : Nat) (st : GwState) (tr : List Nat),
      lookupCd st.cooldowns pname = some texp →
      (∀ i ∈ tr, (provAt providers i).name ≠ pname) →
      (∀ i ∈ (dispatchLoop providers skip attempt now fuel st tr).trace,
        (provAt providers i).name ≠ pname) ∧
      lookupCd (dispatchLoop providers skip attempt now fuel st tr).state.cooldowns
        pname = some texp := by
  intro fuel
  induction fuel with
  | zero => intro st tr hcd htr; exact ⟨htr, hcd⟩
  | succ n ih =>
    intro st tr hcd htr
    by_cases hpn : (provAt providers st.cursor).name = pname
    · have hav : is_provider_available st.cooldowns (provAt providers st.cursor) now =
          (false, st.cooldowns) := by
        unfold is_provider_available
        rw [hpn, hcd]
        exact if_pos hnow
      simp only [dispatchLoop, hav]
      exact ih _ _ hcd htr
    · rcases hav : is_provider_available st.cooldowns (provAt providers st.cursor) now
        with ⟨avail, cds⟩
      have hcds : lookupCd cds pname = some texp := by
        have hpre := lookupCd_avail_preserved st.cooldowns (provAt providers st.cursor)
          now pname (fun hh => hpn hh.symm)
        rw [hav] at hpre
        exact hpre.trans hcd
      cases avail with
      | false =>
        simp only [dispatchLoop, hav]
        exact ih _ _ hcds htr
      | true =>
        simp only [dispatchLoop, hav]
        by_cases hsk : skip (provAt providers st.cursor) = true
        · rw [if_pos hsk]
          exact ih _ _ hcds htr
        · rw [if_neg hsk]
          have htr2 : ∀ i ∈ tr ++ [st.cursor % providers.length],
              (provAt providers i).name ≠ pname := by
            intro i hi
            rcases List.mem_append.mp hi with h1 | h1
            · exact htr i h1
            · have hieq : i = st.cursor % providers.length := by simpa using h1
              rw [hieq]
              unfold provAt at hpn ⊢
              rw [Nat.mod_mod_of_dvd _ (dvd_refl _)]
              exact hpn
          cases hat : attempt (st.cursor % providers.length) with
          | ok r => exact ⟨htr2, hcds⟩
          | error e =>
            refine ih _ _ ?_ htr2
            by_cases hrl : is_rate_limit_error e = true
            · rw [if_pos hrl]
              unfold set_provider_cooldown
              rw [lookupCd_insertCd_ne _ _ _ _ (fun hh => hpn hh.symm)]
              exact hcds
            · rw [if_neg hrl]
              exact hcds

/-- C3: a dispatch call (generate or embed) issued while the current time
is strictly before a provider's cooldown expiry never invokes that
provider's capability — every traced invocation is of a differently named
provider; and once the expiry has passed, the availability check returns
true and removes the expired entry. -/
theorem provider_cooldown_respected
    (providers : List Provider) (attempt : Nat → Except String String)
    (localAvailable : Bool) (localResult : Except String String)
    (now texp : ℚ) (st : GwState) (pname : String)
    (hcd : lookupCd st.cooldowns pname = some texp) (hnow : now < texp) :
    (∀ i ∈ (generate_text providers attempt localAvailable localResult now st).trace,
        (provAt providers i).name ≠ pname) ∧
    (∀ i ∈ (generate_embeddings providers attempt localAvailable localResult now
        st).trace, (provAt providers i).name ≠ pname) ∧
    (∀ (cds : Cooldowns) (p : Provider) (t : ℚ),
      lookupCd cds p.name = some t → t ≤ now →
      (is_provider_available cds p now).1 = true ∧
      lookupCd (is_provider_available cds p now).2 p.name = none) := by
  refine ⟨?_, ?_, ?_⟩
  · unfold generate_text
    by_cases hla : localAvailable = true
    · rw [if_pos hla]
      cases localResult with
      | ok a => intro i hi; simp at hi
      | error e =>
        exact (dispatchLoop_cooldown_invariant providers _ attempt now texp pname hnow
          providers.length st [] hcd (by simp)).1
    · rw [if_neg hla]
      exact (dispatchLoop_cooldown_invariant providers _ attempt now texp pname hnow
        providers.length st [] hcd (by simp)).1
  · unfold generate_embeddings
    by_cases hla : localAvailable = true
    · rw [if_pos hla]
      cases localResult with
      | ok a => intro i hi; simp at hi
      | error e =>
        exact (dispatchLoop_cooldown_invariant providers _ attempt now texp pname hnow
          providers.length st [] hcd (by simp)).1
    · rw [if_neg hla]
      exact (dispatchLoop_cooldown_invariant providers _ attempt now texp pname hnow
        providers.length st [] hcd (by simp)).1
  · intro cds p t hl hle
    have hav : is_provider_available cds p now = (true, eraseCd cds p.name) := by
      unfold is_provider_available
      rw [hl]
      exact if_neg (not_lt.mpr hle)
    rw [hav]
    exact ⟨rfl, lookupCd_eraseCd_self cds p.name⟩

/-- Witness for C3: one Gemini provider cooling until time 10, dispatch
at time 5. -/
theorem provider_cooldown_respected_witness :
    (lookupCd [("gemini_1", (10 : ℚ))] "gemini_1" = some 10 ∧ (5 : ℚ) < 10) ∧
    (∀ i ∈ (generate_text [{ name := "gemini_1", ptype := PType.gemini }]
        (fun _ => Except.ok "hi") false (Except.ok "") 5
        { cursor := 0, cooldowns := [("gemini_1", 10)] }).trace,
      (provAt [{ name := "gemini_1", ptype := PType.gemini }] i).name ≠ "gemini_1") := by
  have h1 : lookupCd [("gemini_1", (10 : ℚ))] "gemini_1" = some 10 := by decide
  have h2 : (5 : ℚ) < 10 := by decide
  obtain ⟨hg, -, -⟩ := provider_cooldown_respected
    [{ name := "gemini_1", ptype := PType.gemini }] (fun _ => Except.ok "hi") false
    (Except.ok "") 5 10 { cursor := 0, cooldowns := [("gemini_1", 10)] } "gemini_1" h1 h2
  exact ⟨⟨h1, h2⟩, hg⟩

/-! ## Theorems: C4 -/

/-- The executable substring test agrees with list infix containment. -/
theorem hasSubstr_iff (needle hay : List Char) :
    hasSubstr hay needle = true ↔ needle <:+: hay := by
  induction hay with
  | nil =>
    simp only [hasSubstr, List.isEmpty_iff]
    constructor
    · intro h
      rw [h]
    · intro h
      exact List.eq_nil_of_infix_nil h
  | cons c t ih =>
    simp only [hasSubstr, Bool.or_eq_true]
    rw [ List.isPrefixOf_iff_prefix, ih]
    exact Iff.symm List.infix_cons_iff

/-- One loop iteration at an available, non-skipped provider whose
attempt raises: the loop continues at the next cursor with the classified
cooldown table and the index recorded in the trace. -/
theorem dispatchLoop_error_step (providers : List Provider)
    (skip : Provider → Bool) (attempt : Nat → Except String String) (now : ℚ)
    (fuel : Nat) (cur : Nat) (cdst : Cooldowns) (tr : List Nat) (e : String)
    (cds : Cooldowns)
    (hav : is_provider_available cdst (provAt providers cur) now = (true, cds))
    (hsk : skip (provAt providers cur) = false)
    (hat : attempt (cur % providers.length) = .error e) :
    dispatchLoop providers skip attempt now (fuel + 1) ⟨cur, cdst⟩ tr =
      dispatchLoop providers skip attempt now fuel
        ⟨(cur + 1) % providers.length,
         if is_rate_limit_error e = true then
           set_provider_cooldown cds (provAt providers cur) now 5
         else cds⟩
        (tr ++ [cur % providers.length]) := by
  simp only [dispatchLoop, hav]
  rw [if_neg (by rw [hsk]; exact Bool.false_ne_true)]
  simp only [hat]

/-- C4: when an attempted provider raises an error, the message is
classified by case-insensitive substring match against the rate-limit
indicators ("rate limit", "quota", "429", "too many requests"); a match
installs a cooldown entry expiring 5 minutes (300 seconds) after now and
the loop continues with the next candidate; otherwise the cooldown table
is passed on unchanged and the loop still continues with the next
candidate. -/
theorem error_classification_and_cooldown
    (providers : List Provider) (skip : Provider → Bool)
    (attempt : Nat → Except String String) (now : ℚ) (fuel : Nat)
    (st : GwState) (tr : List Nat) (e : String) (cds : Cooldowns)
    (hav : is_provider_available st.cooldowns (provAt providers st.cursor) now =
      (true, cds))
    (hsk : skip (provAt providers st.cursor) = false)
    (hat : attempt (st.cursor % providers.length) = .error e) :
    (is_rate_limit_error e = false →
      dispatchLoop providers skip attempt now (fuel + 1) st tr =
        dispatchLoop providers skip attempt now fuel
          ⟨(st.cursor + 1) % providers.length, cds⟩
          (tr ++ [st.cursor % providers.length])) ∧
    (is_rate_limit_error e = true →
      dispatchLoop providers skip attempt now (fuel + 1) st tr =
        dispatchLoop providers skip attempt now fuel
          ⟨(st.cursor + 1) % providers.length,
           set_provider_cooldown cds (provAt providers st.cursor) now 5⟩
          (tr ++ [st.cursor % providers.length]) ∧
      lookupCd (set_provider_cooldown cds (provAt providers st.cursor) now 5)
        (provAt providers st.cursor).name = some (now + 5 * 60)) ∧
    (is_rate_limit_error e = true ↔
      ∃ term ∈ rateLimitIndicators, term.data <:+: (lowerStr e).data) := by
  obtain ⟨cur, cdst⟩ := st
  refine ⟨?_, ?_, ?_⟩
  · intro hrl
    rw [dispatchLoop_error_step providers skip attempt now fuel cur cdst tr e cds
      hav hsk hat]
    have hif : (if is_rate_limit_error e = true then
        set_provider_cooldown cds (provAt providers cur) now 5 else cds) = cds :=
      if_neg (by rw [hrl]; exact Bool.false_ne_true)
    rw [hif]
  · intro hrl
    constructor
    · rw [dispatchLoop_error_step providers skip attempt now fuel cur cdst tr e cds
        hav hsk hat]
      have hif : (if is_rate_limit_error e = true then
          set_provider_cooldown cds (provAt providers cur) now 5 else cds) =
          set_provider_cooldown cds (provAt providers cur) now 5 :=
        if_pos hrl
      rw [hif]
    · unfold set_provider_cooldown
      exact lookupCd_insertCd_self _ _ _
  · unfold is_rate_limit_error
    rw [List.any_eq_true]
    constructor
    · rintro ⟨term, hterm, hsub⟩
      exact ⟨term, hterm, (hasSubstr_iff term.data (lowerStr e).data).mp hsub⟩
    · rintro ⟨term, hterm, hsub⟩
      exact ⟨term, hterm, (hasSubstr_iff term.data (lowerStr e).data).mpr hsub⟩

/-- Witness for C4: a single Gemini provider, a 429-flavoured error, time
0, empty cooldown table. -/
theorem error_classification_and_cooldown_witness :
    (is_provider_available ([] : Cooldowns)
        (provAt [{ name := "gemini_1", ptype := PType.gemini }]
          (initGw.cursor)) 0 = (true, []) ∧
      (fun _ : Provider => false)
        (provAt [{ name := "gemini_1", ptype := PType.gemini }] initGw.cursor) = false ∧
      (fun _ : Nat => (Except.error "HTTP 429" : Except String String))
        (initGw.cursor % ([{ name := "gemini_1", ptype := PType.gemini }] : List Provider).length) =
        .error "HTTP 429") ∧
    (is_rate_limit_error "HTTP 429" = true ↔
      ∃ term ∈ rateLimitIndicators, term.data <:+: (lowerStr "HTTP 429").data) := by
  have h1 : is_provider_available ([] : Cooldowns)
      (provAt [{ name := "gemini_1", ptype := PType.gemini }] initGw.cursor) 0 =
      (true, []) := by decide
  have h2 : (fun _ : Provider => false)
      (provAt [{ name := "gemini_1", ptype := PType.gemini }] initGw.cursor) = false := rfl
  have h3 : (fun _ : Nat => (Except.error "HTTP 429" : Except String String))
      (initGw.cursor % ([{ name := "gemini_1", ptype := PType.gemini }] : List Provider).length) =
      .error "HTTP 429" := rfl
  obtain ⟨-, -, hiff⟩ := error_classification_and_cooldown
    [{ name := "gemini_1", ptype := PType.gemini }] (fun _ => false)
    (fun _ => (Except.error "HTTP 429" : Except String String)) 0 0 initGw [] "HTTP 429"
    [] h1 h2 h3
  exact ⟨⟨h1, h2, h3⟩, hiff⟩

/-! ## Theorems: C5 -/

/-- Availability is trivial on an empty cooldown table. -/
theorem avail_empty (p : Provider) (now : ℚ) :
    is_provider_available [] p now = (true, []) := rfl

theorem map_add_range_succ (c n : Nat) :
    (List.range (n + 1)).map (c + ·) = c :: (List.range n).map (c + 1 + ·) := by
  rw [List.range_succ_eq_map, List.map_cons, List.map_map]
  refine congrArg₂ _ (by omega) ?_
  refine List.map_congr_left ?_
  intro x _
  simp only [Function.comp_apply]
  omega

/-- A run of the provider loop from cursor c with an empty cooldown table
in which the first f−1 sequentially attempted providers fail with
non-rate-limit errors and the f-th succeeds: it returns the f-th's result
and attempts exactly the indices c, c+1, ..., c+f−1 in order. -/
theorem dispatchLoop_fallback (providers : List Provider)
    (attempt : Nat → Except String String) (now : ℚ) (r : String)
    (es : Nat → String) :
    ∀ (f c : Nat) (tr : List Nat), 1 ≤ f → c + f ≤ providers.length →
      (∀ m, m < f - 1 → attempt (c + m) = .error (es (c + m))) →
      (∀ m, m < f - 1 → is_rate_limit_error (es (c + m)) = false) →
      attempt (c + f - 1) = .ok r →
      dispatchLoop providers (fun _ => false) attempt now f ⟨c, []⟩ tr =
        ⟨.ok r, ⟨c + f - 1, []⟩, tr ++ (List.range f).map (c + ·)⟩ := by
  intro f
  induction f with
  | zero => intro c tr h1; exact absurd h1 (by omega)
  | succ n ih =>
    intro c tr hf hcf hfail hnrl hok
    have hclen : c < providers.length := by omega
    have hcm : c % providers.length = c := Nat.mod_eq_of_lt hclen
    cases n with
    | zero =>
      have hok2 : attempt c = .ok r := by simpa using hok
      simp only [dispatchLoop, avail_empty, hcm, hok2]
      simp [List.range_succ]
    | succ m =>
      have h0 : attempt c = .error (es c) := by
        have h00 := hfail 0 (by omega)
        simpa using h00
      have h0n : is_rate_limit_error (es c) = false := by
        have h00 := hnrl 0 (by omega)
        simpa using h00
      have hc1 : (c + 1) % providers.length = c + 1 := Nat.mod_eq_of_lt (by omega)
      have hstep : dispatchLoop providers (fun _ => false) attempt now (m + 1 + 1)
          ⟨c, []⟩ tr =
          dispatchLoop providers (fun _ => false) attempt now (m + 1)
            ⟨c + 1, []⟩ (tr ++ [c]) := by
        rw [dispatchLoop_error_step providers (fun _ => false) attempt now (m + 1)
          c [] tr (es c) [] (avail_empty _ now) rfl (by rw [hcm]; exact h0)]
        rw [if_neg (by rw [h0n]; exact Bool.false_ne_true), hc1, hcm]
      rw [hstep]
      have hfail2 : ∀ m2, m2 < (m + 1) - 1 →
          attempt (c + 1 + m2) = .error (es (c + 1 + m2)) := by
        intro m2 hm2
        have h2 := hfail (m2 + 1) (by omega)
        have harr : c + (m2 + 1) = c + 1 + m2 := by omega
        rwa [harr] at h2
      have hnrl2 : ∀ m2, m2 < (m + 1) - 1 →
          is_rate_limit_error (es (c + 1 + m2)) = false := by
        intro m2 hm2
        have h2 := hnrl (m2 + 1) (by omega)
        have harr : c + (m2 + 1) = c + 1 + m2 := by omega
        rwa [harr] at h2
      have hok2 : attempt (c + 1 + (m + 1) - 1) = .ok r := by
        have harr : c + 1 + (m + 1) - 1 = c + (m + 1 + 1) - 1 := by omega
        rw [harr]
        exact hok
      rw [ih (c + 1) (tr ++ [c]) (by omega) (by omega) hfail2 hnrl2 hok2]
      have hcur2 : c + 1 + (m + 1) - 1 = c + (m + 1 + 1) - 1 := by omega
      have htr2 : (tr ++ [c]) ++ (List.range (m + 1)).map (c + 1 + ·) =
          tr ++ (List.range (m + 1 + 1)).map (c + ·) := by
        rw [map_add_range_succ c (m + 1), List.append_assoc]
        rfl
      rw [hcur2, htr2]

/-- C5: with the local provider unavailable, a fresh cursor and no
cooldowns, if the first N−1 registry providers each fail with a
non-rate-limit error and the Nth succeeds, generate_text returns the
Nth's result and every one of the N providers is attempted exactly once
(the trace is 0, 1, ..., N−1). -/
theorem fallback_completeness
    (providers : List Provider) (attempt : Nat → Except String String)
    (now : ℚ) (r : String) (es : Nat → String)
    (hne : providers ≠ [])
    (hfail : ∀ j, j < providers.length - 1 → attempt j = .error (es j))
    (hnrl : ∀ j, j < providers.length - 1 → is_rate_limit_error (es j) = false)
    (hok : attempt (providers.length - 1) = .ok r) :
    (generate_text providers attempt false (Except.ok "") now initGw).result = .ok r ∧
    (generate_text providers attempt false (Except.ok "") now initGw).trace =
      List.range providers.length ∧
    ∀ i, i < providers.length →
      (generate_text providers attempt false (Except.ok "") now initGw).trace.count i
        = 1 := by
  have hlen : 1 ≤ providers.length := List.length_pos.mpr hne
  have hgen : generate_text providers attempt false (Except.ok "") now initGw =
      dispatchLoop providers (fun _ => false) attempt now providers.length
        ⟨0, []⟩ [] := rfl
  have hloop := dispatchLoop_fallback providers attempt now r es providers.length 0 []
    hlen (by omega)
    (by intro m hm; simpa using hfail m (by omega))
    (by intro m hm; simpa using hnrl m (by omega))
    (by simpa using hok)
  have htr : ([] : List Nat) ++ (List.range providers.length).map (0 + ·) =
      List.range providers.length := by
    rw [List.nil_append]
    have hz : ∀ x ∈ List.range providers.length, 0 + x = x := fun x _ => Nat.zero_add x
    rw [List.map_congr_left hz, List.map_id']
  rw [hgen, hloop]
  refine ⟨rfl, htr, ?_⟩
  intro i hi
  show (([] : List Nat) ++ (List.range providers.length).map (0 + ·)).count i = 1
  rw [htr]
  exact List.count_eq_one_of_mem (List.nodup_range _) (List.mem_range.mpr hi)

/-- Witness for C5: two providers, the first failing with a generic
error, the second succeeding. -/
theorem fallback_completeness_witness :
    (([{ name := "gemini_1", ptype := PType.gemini },
        { name := "openai", ptype := PType.openai }] : List Provider) ≠ [] ∧
      (fun j : Nat => if j = 0 then (Except.error "boom" : Except String String)
        else Except.ok "answer") (2 - 1) = Except.ok "answer") ∧
    (generate_text [{ name := "gemini_1", ptype := PType.gemini },
        { name := "openai", ptype := PType.openai }]
      (fun j => if j = 0 then Except.error "boom" else Except.ok "answer")
      false (Except.ok "") 0 initGw).result = .ok "answer" ∧
    (generate_text [{ name := "gemini_1", ptype := PType.gemini },
        { name := "openai", ptype := PType.openai }]
      (fun j => if j = 0 then Except.error "boom" else Except.ok "answer")
      false (Except.ok "") 0 initGw).trace = List.range 2 := by
  have h1 : ([{ name := "gemini_1", ptype := PType.gemini },
      { name := "openai", ptype := PType.openai }] : List Provider) ≠ [] := by decide
  have h2 : ∀ j, j < ([{ name := "gemini_1", ptype := PType.gemini },
      { name := "openai", ptype := PType.openai }] : List Provider).length - 1 →
      (fun j : Nat => if j = 0 then (Except.error "boom" : Except String String)
        else Except.ok "answer") j = .error ((fun _ => "boom") j) := by decide
  have h3 : ∀ j, j < ([{ name := "gemini_1", ptype := PType.gemini },
      { name := "openai", ptype := PType.openai }] : List Provider).length - 1 →
      is_rate_limit_error ((fun _ : Nat => "boom") j) = false := by decide
  have h4 : (fun j : Nat => if j = 0 then (Except.error "boom" : Except String String)
      else Except.ok "answer")
      (([{ name := "gemini_1", ptype := PType.gemini },
        { name := "openai", ptype := PType.openai }] : List Provider).length - 1) =
      .ok "answer" := by decide
  obtain ⟨hr, ht, -⟩ := fallback_completeness
    [{ name := "gemini_1", ptype := PType.gemini },
      { name := "openai", ptype := PType.openai }]
    (fun j => if j = 0 then Except.error "boom" else Except.ok "answer") 0 "answer"
    (fun _ => "boom") h1 h2 h3 h4
  exact ⟨⟨h1, h4⟩, hr, ht⟩

/-! ## Theorems: C6 -/

/-- Any error result of the provider loop carries exactly the terminal
all-providers-failed message, never an individual provider's error. -/
theorem dispatchLoop_error_terminal (providers : List Provider)
    (skip : Provider → Bool) (attempt : Nat → Except String String) (now : ℚ) :
    ∀ (fuel : Nat) (st : GwState) (tr : List Nat) (m : String),
      (dispatchLoop providers skip attempt now fuel st tr).result = .error m →
      m = allProvidersFailedMsg := by
  intro fuel
  induction fuel with
  | zero =>
    intro st tr m hm
    simp only [dispatchLoop] at hm
    exact (Except.error.inj hm).symm
  | succ n ih =>
    intro st tr m hm
    rcases hav : is_provider_available st.cooldowns (provAt providers st.cursor) now
      with ⟨avail, cds⟩
    cases avail with
    | false =>
      simp only [dispatchLoop, hav] at hm
      exact ih _ _ _ hm
    | true =>
      simp only [dispatchLoop, hav] at hm
      by_cases hsk : skip (provAt providers st.cursor) = true
      · rw [if_pos hsk] at hm
        exact ih _ _ _ hm
      · rw [if_neg hsk] at hm
        cases hat : attempt (st.cursor % providers.length) with
        | ok r =>
          simp only [hat] at hm
          exact Except.noConfusion hm
        | error e =>
          simp only [hat] at hm
          exact ih _ _ _ hm

/-- When every attempt fails, the loop exhausts with the terminal error. -/
theorem dispatchLoop_all_fail (providers : List Provider)
    (skip : Provider → Bool) (attempt : Nat → Except String String) (now : ℚ)
    (hall : ∀ j, ∃ e, attempt j = Except.error e) :
    ∀ (fuel : Nat) (st : GwState) (tr : List Nat),
      (dispatchLoop providers skip attempt now fuel st tr).result =
        .error allProvidersFailedMsg := by
  intro fuel
  induction fuel with
  | zero => intro st tr; rfl
  | succ n ih =>
    intro st tr
    rcases hav : is_provider_available st.cooldowns (provAt providers st.cursor) now
      with ⟨avail, cds⟩
    cases avail with
    | false =>
      simp only [dispatchLoop, hav]
      exact ih _ _
    | true =>
      simp only [dispatchLoop, hav]
      by_cases hsk : skip (provAt providers st.cursor) = true
      · rw [if_pos hsk]
        exact ih _ _
      · rw [if_neg hsk]
        obtain ⟨e, he⟩ := hall (st.cursor % providers.length)
        simp only [he]
        exact ih _ _

/-- C6: if the local provider is unavailable or fails and every registry
attempt fails, both dispatch entry points raise exactly the terminal
all-providers-failed error; moreover, for any attempt behaviour and any
start state, an error result of either entry point can only be the
terminal error — no individual provider error escapes the loop. -/
theorem graceful_exhaustion
    (providers : List Provider) (attempt : Nat → Except String String)
    (localAvailable : Bool) (localResult : Except String String) (now : ℚ)
    (st : GwState)
    (hlocal : localAvailable = true → ∃ e, localResult = Except.error e)
    (hall : ∀ j, ∃ e, attempt j = Except.error e) :
    (generate_text providers attempt localAvailable localResult now st).result =
      .error allProvidersFailedMsg ∧
    (generate_embeddings providers attempt localAvailable localResult now st).result =
      .error allProvidersFailedMsg ∧
    (∀ (attempt2 : Nat → Except String String) (st2 : GwState) (m : String),
      (generate_text providers attempt2 localAvailable localResult now st2).result =
        Except.error m → m = allProvidersFailedMsg) ∧
    (∀ (attempt2 : Nat → Except String String) (st2 : GwState) (m : String),
      (generate_embeddings providers attempt2 localAvailable localResult now
        st2).result = Except.error m → m = allProvidersFailedMsg) := by
  refine ⟨?_, ?_, ?_, ?_⟩
  · unfold generate_text
    by_cases hla : localAvailable = true
    · rw [if_pos hla]
      obtain ⟨e, he⟩ := hlocal hla
      rw [he]
      exact dispatchLoop_all_fail providers _ attempt now hall _ _ _
    · rw [if_neg hla]
      exact dispatchLoop_all_fail providers _ attempt now hall _ _ _
  · unfold generate_embeddings
    by_cases hla : localAvailable = true
    · rw [if_pos hla]
      obtain ⟨e, he⟩ := hlocal hla
      rw [he]
      exact dispatchLoop_all_fail providers _ attempt now hall _ _ _
    · rw [if_neg hla]
      exact dispatchLoop_all_fail providers _ attempt now hall _ _ _
  · intro attempt2 st2 m hm
    unfold generate_text at hm
    by_cases hla : localAvailable = true
    · rw [if_pos hla] at hm
      cases hlr : localResult with
      | ok a =>
        simp only [hlr] at hm
        exact Except.noConfusion hm
      | error e =>
        simp only [hlr] at hm
        exact dispatchLoop_error_terminal providers _ attempt2 now _ _ _ _ hm
    · rw [if_neg hla] at hm
      exact dispatchLoop_error_terminal providers _ attempt2 now _ _ _ _ hm
  · intro attempt2 st2 m hm
    unfold generate_embeddings at hm
    by_cases hla : localAvailable = true
    · rw [if_pos hla] at hm
      cases hlr : localResult with
      | ok a =>
        simp only [hlr] at hm
        exact Except.noConfusion hm
      | error e =>
        simp only [hlr] at hm
        exact dispatchLoop_error_terminal providers _ attempt2 now _ _ _ _ hm
    · rw [if_neg hla] at hm
      exact dispatchLoop_error_terminal providers _ attempt2 now _ _ _ _ hm

/-- Witness for C6: one provider that always fails, local unavailable. -/
theorem graceful_exhaustion_witness :
    ((false = true → ∃ e, (Except.ok "" : Except String String) = Except.error e) ∧
      (∀ j : Nat, ∃ e, (fun _ : Nat =>
        (Except.error "boom" : Except String String)) j = Except.error e)) ∧
    (generate_text [{ name := "gemini_1", ptype := PType.gemini }]
      (fun _ => Except.error "boom") false (Except.ok "") 0 initGw).result =
      .error allProvidersFailedMsg := by
  have h1 : false = true → ∃ e, (Except.ok "" : Except String String) =
      Except.error e := fun h => absurd h (by simp)
  have h2 : ∀ j : Nat, ∃ e, (fun _ : Nat =>
      (Except.error "boom" : Except String String)) j = Except.error e :=
    fun _ => ⟨"boom", rfl⟩
  obtain ⟨hg, -, -, -⟩ := graceful_exhaustion
    [{ name := "gemini_1", ptype := PType.gemini }] (fun _ => Except.error "boom")
    false (Except.ok "") 0 initGw h1 h2
  exact ⟨⟨h1, h2⟩, hg⟩

/-! ## Theorems: C7 -/

/-- When the loop exhausts, the cursor has advanced once per iteration:
it ends fuel positions (mod N) past its start. -/
theorem dispatchLoop_cursor_error (providers : List Provider)
    (skip : Provider → Bool) (attempt : Nat → Except String String) (now : ℚ) :
    ∀ (fuel : Nat) (st : GwState) (tr : List Nat) (m : String),
      st.cursor < providers.length →
      (dispatchLoop providers skip attempt now fuel st tr).result = .error m →
      (dispatchLoop providers skip attempt now fuel st tr).state.cursor =
        (st.cursor + fuel) % providers.length := by
  intro fuel
  induction fuel with
  | zero =>
    intro st tr m hcur _
    simp only [dispatchLoop]
    rw [Nat.add_zero, Nat.mod_eq_of_lt hcur]
  | succ n ih =>
    intro st tr m hcur hm
    have hN : 0 < providers.length := lt_of_le_of_lt (Nat.zero_le _) hcur
    have hnext : ((st.cursor + 1) % providers.length) < providers.length :=
      Nat.mod_lt _ hN
    rcases hav : is_provider_available st.cooldowns (provAt providers st.cursor) now
      with ⟨avail, cds⟩
    cases avail with
    | false =>
      simp only [dispatchLoop, hav] at hm ⊢
      rw [ih _ _ m hnext hm, Nat.mod_add_mod]
      congr 1
      omega
    | true =>
      simp only [dispatchLoop, hav] at hm ⊢
      by_cases hsk : skip (provAt providers st.cursor) = true
      · rw [if_pos hsk] at hm ⊢
        rw [ih _ _ m hnext hm, Nat.mod_add_mod]
        congr 1
        omega
      · rw [if_neg hsk] at hm ⊢
        cases hat : attempt (st.cursor % providers.length) with
        | ok r =>
          simp only [hat] at hm
          exact Except.noConfusion hm
        | error e =>
          simp only [hat] at hm ⊢
          rw [ih _ _ m hnext hm, Nat.mod_add_mod]
          congr 1
          omega

/-- When the loop returns a registry success, the cursor still points at
the successful provider: the last traced index equals the final cursor. -/
theorem dispatchLoop_cursor_ok (providers : List Provider)
    (skip : Provider → Bool) (attempt : Nat → Except String String) (now : ℚ) :
    ∀ (fuel : Nat) (st : GwState) (tr : List Nat) (r : String),
      st.cursor < providers.length →
      (dispatchLoop providers skip attempt now fuel st tr).result = .ok r →
      (dispatchLoop providers skip attempt now fuel st tr).trace.getLast? =
        some (dispatchLoop providers skip attempt now fuel st tr).state.cursor := by
  intro fuel
  induction fuel with
  | zero =>
    intro st tr r _ hm
    simp only [dispatchLoop] at hm
    exact Except.noConfusion hm
  | succ n ih =>
    intro st tr r hcur hm
    have hN : 0 < providers.length := lt_of_le_of_lt (Nat.zero_le _) hcur
    have hnext : ((st.cursor + 1) % providers.length) < providers.length :=
      Nat.mod_lt _ hN
    rcases hav : is_provider_available st.cooldowns (provAt providers st.cursor) now
      with ⟨avail, cds⟩
    cases avail with
    | false =>
      simp only [dispatchLoop, hav] at hm ⊢
      exact ih _ _ r hnext hm
    | true =>
      simp only [dispatchLoop, hav] at hm ⊢
      by_cases hsk : skip (provAt providers st.cursor) = true
      · rw [if_pos hsk] at hm ⊢
        exact ih _ _ r hnext hm
      · rw [if_neg hsk] at hm ⊢
        cases hat : attempt (st.cursor % providers.length) with
        | ok r2 =>
          simp only [hat] at hm ⊢
          rw [List.getLast?_concat, Nat.mod_eq_of_lt hcur]
        | error e =>
          simp only [hat] at hm ⊢
          exact ih _ _ r hnext hm

/-- C7 counterexample: two providers, the first succeeds immediately. The
last attempted provider is index 0, yet the final cursor is 0, not
(0+1) mod 2 = 1: a successful dispatch leaves the cursor pointing at the
successful provider rather than the one after it. -/
theorem rotation_cursor_counterexample :
    (generate_text [{ name := "gemini_1", ptype := PType.gemini },
        { name := "gemini_2", ptype := PType.gemini }]
      (fun _ => Except.ok "ans") false (Except.ok "") 0 initGw).trace = [0] ∧
    (generate_text [{ name := "gemini_1", ptype := PType.gemini },
        { name := "gemini_2", ptype := PType.gemini }]
      (fun _ => Except.ok "ans") false (Except.ok "") 0 initGw).state.cursor = 0 ∧
    (generate_text [{ name := "gemini_1", ptype := PType.gemini },
        { name := "gemini_2", ptype := PType.gemini }]
      (fun _ => Except.ok "ans") false (Except.ok "") 0 initGw).state.cursor ≠
      (0 + 1) % 2 := by
  refine ⟨?_, ?_, ?_⟩ <;> decide

/-- C7 amended: a dispatch call (generate or embed) that ends in
exhaustion has advanced the cursor once per processed provider, ending a
full sweep past the last one — back at its starting position; a call that
ends in a registry-provider success leaves the cursor pointing at the
successful provider itself (the last traced index), not the one after. -/
theorem rotation_cursor_amended
    (providers : List Provider) (attempt : Nat → Except String String)
    (localAvailable : Bool) (localResult : Except String String) (now : ℚ)
    (st : GwState) (hcur : st.cursor < providers.length) :
    ((∃ m, (generate_text providers attempt localAvailable localResult now
        st).result = Except.error m) →
      (generate_text providers attempt localAvailable localResult now
        st).state.cursor = st.cursor) ∧
    (∀ r, (generate_text providers attempt localAvailable localResult now
        st).result = Except.ok r →
      (generate_text providers attempt localAvailable localResult now st).trace ≠ [] →
      (generate_text providers attempt localAvailable localResult now
        st).trace.getLast? = some (generate_text providers attempt localAvailable
          localResult now st).state.cursor) ∧
    ((∃ m, (generate_embeddings providers attempt localAvailable localResult now
        st).result = Except.error m) →
      (generate_embeddings providers attempt localAvailable localResult now
        st).state.cursor = st.cursor) ∧
    (∀ r, (generate_embeddings providers attempt localAvailable localResult now
        st).result = Except.ok r →
      (generate_embeddings providers attempt localAvailable localResult now
        st).trace ≠ [] →
      (generate_embeddings providers attempt localAvailable localResult now
        st).trace.getLast? = some (generate_embeddings providers attempt
          localAvailable localResult now st).state.cursor) := by
  have hfinal : ∀ skip : Provider → Bool,
      (∀ m, (dispatchLoop providers skip attempt now providers.length st []).result =
          Except.error m →
        (dispatchLoop providers skip attempt now providers.length st []).state.cursor =
          st.cursor) := by
    intro skip m hm
    rw [dispatchLoop_cursor_error providers skip attempt now providers.length st [] m
      hcur hm, Nat.add_mod_right]
    exact Nat.mod_eq_of_lt hcur
  refine ⟨?_, ?_, ?_, ?_⟩
  · rintro ⟨m, hm⟩
    unfold generate_text at hm ⊢
    by_cases hla : localAvailable = true
    · rw [if_pos hla] at hm ⊢
      cases hlr : localResult with
      | ok a =>
        simp only [hlr] at hm
        exact Except.noConfusion hm
      | error e =>
        simp only [hlr] at hm ⊢
        exact hfinal _ m hm
    · rw [if_neg hla] at hm ⊢
      exact hfinal _ m hm
  · intro r hm htr
    unfold generate_text at hm htr ⊢
    by_cases hla : localAvailable = true
    · rw [if_pos hla] at hm htr ⊢
      cases hlr : localResult with
      | ok a => simp only [hlr] at htr; exact absurd rfl htr
      | error e =>
        simp only [hlr] at hm ⊢
        exact dispatchLoop_cursor_ok providers _ attempt now providers.length st [] r
          hcur hm
    · rw [if_neg hla] at hm ⊢
      exact dispatchLoop_cursor_ok providers _ attempt now providers.length st [] r
        hcur hm
  · rintro ⟨m, hm⟩
    unfold generate_embeddings at hm ⊢
    by_cases hla : localAvailable = true
    · rw [if_pos hla] at hm ⊢
      cases hlr : localResult with
      | ok a =>
        simp only [hlr] at hm
        exact Except.noConfusion hm
      | error e =>
        simp only [hlr] at hm ⊢
        exact hfinal _ m hm
    · rw [if_neg hla] at hm ⊢
      exact hfinal _ m hm
  · intro r hm htr
    unfold generate_embeddings at hm htr ⊢
    by_cases hla : localAvailable = true
    · rw [if_pos hla] at hm htr ⊢
      cases hlr : localResult with
      | ok a => simp only [hlr] at htr; exact absurd rfl htr
      | error e =>
        simp only [hlr] at hm ⊢
        exact dispatchLoop_cursor_ok providers _ attempt now providers.length st [] r
          hcur hm
    · rw [if_neg hla] at hm ⊢
      exact dispatchLoop_cursor_ok providers _ attempt now providers.length st [] r
        hcur hm

/-- Witness for the amended C7 at two providers with all attempts
failing. -/
theorem rotation_cursor_amended_witness :
    (initGw.cursor < ([{ name := "gemini_1", ptype := PType.gemini },
        { name := "gemini_2", ptype := PType.gemini }] : List Provider).length) ∧
    ((∃ m, (generate_text [{ name := "gemini_1", ptype := PType.gemini },
        { name := "gemini_2", ptype := PType.gemini }]
        (fun _ => Except.error "x") false (Except.ok "") 0 initGw).result =
        Except.error m) →
      (generate_text [{ name := "gemini_1", ptype := PType.gemini },
        { name := "gemini_2", ptype := PType.gemini }]
        (fun _ => Except.error "x") false (Except.ok "") 0 initGw).state.cursor =
        initGw.cursor) := by
  have h1 : initGw.cursor < ([{ name := "gemini_1", ptype := PType.gemini },
      { name := "gemini_2", ptype := PType.gemini }] : List Provider).length := by
    decide
  obtain ⟨he, -, -, -⟩ := rotation_cursor_amended
    [{ name := "gemini_1", ptype := PType.gemini },
      { name := "gemini_2", ptype := PType.gemini }]
    (fun _ => Except.error "x") false (Except.ok "") 0 initGw h1
  exact ⟨h1, he⟩

/-- Witness for C1 at a concrete store, hash and embedder. -/
theorem add_documents_idempotent_cache_witness :
    ([({ content := "a", embedding := none } : Chunk)] ≠ ([] : List Chunk) ∧
     "h" ≠ "" ∧
     ((fun ts : List String => ts.map fun _ => [(1 : ℚ)])
        ([({ content := "a", embedding := none } : Chunk)].map Chunk.content)).length =
       [({ content := "a", embedding := none } : Chunk)].length) ∧
    ((add_documents (fun ts : List String => ts.map fun _ => [(1 : ℚ)])
        [{ content := "a", embedding := none }] (some "h")
        (add_documents (fun ts : List String => ts.map fun _ => [(1 : ℚ)])
          [{ content := "a", embedding := none }] (some "h") initVS).1).1 =
      (add_documents (fun ts : List String => ts.map fun _ => [(1 : ℚ)])
        [{ content := "a", embedding := none }] (some "h") initVS).1 ∧
    (add_documents (fun ts : List String => ts.map fun _ => [(1 : ℚ)])
        [{ content := "a", embedding := none }] (some "h")
        (add_documents (fun ts : List String => ts.map fun _ => [(1 : ℚ)])
          [{ content := "a", embedding := none }] (some "h") initVS).1).2 = [] ∧
    (add_documents (fun ts : List String => ts.map fun _ => [(1 : ℚ)])
        [{ content := "a", embedding := none }] (some "h") initVS).2 =
      [[({ content := "a", embedding := none } : Chunk)].map Chunk.content]) :=
  ⟨⟨by decide, by decide, by decide⟩,
    add_documents_idempotent_cache (fun ts : List String => ts.map fun _ => [(1 : ℚ)])
      [{ content := "a", embedding := none }] [{ content := "a", embedding := none }] "h"
      (by decide) (by decide) (by decide)⟩

/-! ## Theorems: C8 -/

/-- C8: process_query never propagates an exception: for every behaviour
of the preprocessing, retrieval and generation collaborators it returns a
string — the pipeline's value when the body succeeds, and an apologetic
answer beginning "I apologize" when the body raises — so a batch of
questions always yields exactly one answer per question. -/
theorem process_query_never_throws (preprocess : String → String)
    (relevantContext : String → Except String String)
    (extractSections : String → String → String)
    (genMulti genDirect : String → String → Except String String)
    (query : String) (documentText : Option String) :
    ((∃ a, process_query_body preprocess relevantContext extractSections genMulti
        genDirect query documentText = .ok a ∧
      process_query preprocess relevantContext extractSections genMulti genDirect
        query documentText = a) ∨
     (∃ e, process_query_body preprocess relevantContext extractSections genMulti
        genDirect query documentText = .error e ∧
      process_query preprocess relevantContext extractSections genMulti genDirect
        query documentText = processErrorApology e ∧
      ∃ rest, process_query preprocess relevantContext extractSections genMulti
        genDirect query documentText = "I apologize" ++ rest)) ∧
    ∀ qs : List String,
      (qs.map fun q2 => process_query preprocess relevantContext extractSections
        genMulti genDirect q2 documentText).length = qs.length := by
  constructor
  · cases hb : process_query_body preprocess relevantContext extractSections genMulti
      genDirect query documentText with
    | ok a =>
      refine Or.inl ⟨a, rfl, ?_⟩
      unfold process_query
      rw [hb]
    | error e =>
      have hq : process_query preprocess relevantContext extractSections genMulti
          genDirect query documentText = processErrorApology e := by
        unfold process_query
        rw [hb]
      refine Or.inr ⟨e, rfl, hq, ⟨", but I encountered an error while processing your query: " ++ e, ?_⟩⟩
      rw [hq]
      unfold processErrorApology
      rw [← String.append_assoc]
      rfl
  · intro qs
    exact List.length_map _ _

/-- Witness for C8 (its statement has no propositional hypothesis, but a
concrete failing-retrieval instance is still exhibited): with retrieval
throwing "db down", the returned answer is the apology string. -/
theorem process_query_never_throws_witness :
    process_query id (fun _ => Except.error "db down") (fun _ d => d)
      (fun _ _ => Except.ok "fine.") (fun _ _ => Except.ok "fine.") "q" none =
      "I apologize, but I encountered an error while processing your query: db down" := by
  have h := (process_query_never_throws id (fun _ => Except.error "db down")
    (fun _ d => d) (fun _ _ => Except.ok "fine.") (fun _ _ => Except.ok "fine.")
    "q" none).1
  rcases h with ⟨a, hb, -⟩ | ⟨e, hb, hq, -⟩
  · have hbody : process_query_body id (fun _ => Except.error "db down") (fun _ d => d)
        (fun _ _ => (Except.ok "fine." : Except String String))
        (fun _ _ => (Except.ok "fine." : Except String String)) "q" none =
        Except.error "db down" := by decide
    rw [hbody] at hb
    exact Except.noConfusion hb
  · have he : e = "db down" := by
      have : process_query_body id (fun _ => Except.error "db down") (fun _ d => d)
          (fun _ _ => (Except.ok "fine." : Except String String))
          (fun _ _ => (Except.ok "fine." : Except String String)) "q" none =
          Except.error "db down" := by decide
      rw [this] at hb
      exact (Except.error.inj hb).symm
    rw [hq, he]
    rfl

/-! ## Theorems: C9 -/

/-- C9 counterexample: the all-zero raw vector is mapped by the
normalization step to the zero vector, whose L2 norm is 0, not within
1e-6 of 1. -/
theorem normalization_counterexample :
    normalizeRow [0] = [0] ∧ l2norm (normalizeRow [0]) = 0 ∧
    ¬ |l2norm (normalizeRow [0]) - 1| ≤ 1 / 1000000 := by
  have h1 : normalizeRow [0] = [0] := by
    simp [normalizeRow]
  have h2 : l2norm ([0] : List ℝ) = 0 := by
    simp [l2norm]
  refine ⟨h1, by rw [h1]; exact h2, ?_⟩
  rw [h1, h2]
  norm_num

/-- Dividing every component by a nonnegative constant divides the L2
norm by that constant. -/
theorem l2norm_map_div (v : List ℝ) (c : ℝ) (hc : 0 ≤ c) :
    l2norm (v.map fun x => x / c) = l2norm v / c := by
  have hs : (0 : ℝ) ≤ (v.map fun x => x * x).sum := by
    refine List.sum_nonneg ?_
    intro x hx
    obtain ⟨y, -, rfl⟩ := List.mem_map.mp hx
    exact mul_self_nonneg y
  unfold l2norm
  rw [List.map_map]
  rw [show ((fun x => x * x) ∘ fun x => x / c) = fun x => x * x * (c⁻¹ * c⁻¹)
    from funext fun x => by rw [Function.comp_apply, div_eq_mul_inv]; ring]
  rw [List.sum_map_mul_right v (fun x => x * x) (c⁻¹ * c⁻¹), Real.sqrt_mul hs,
    Real.sqrt_mul_self (inv_nonneg.mpr hc), div_eq_mul_inv]

/-- C9 amended: every raw vector of L2 norm at least 1/100 (in
particular every unit-scale embedding; the zero vector is excluded) is
normalized to a row of the inserted batch whose L2 norm is 1 within
1e-6. -/
theorem normalization_within_tolerance (rows : List (List ℝ)) (v : List ℝ)
    (hv : v ∈ rows) (hnorm : 1 / 100 ≤ l2norm v) :
    normalizeRow v ∈ normalizeBatch rows ∧
    |l2norm (normalizeRow v) - 1| ≤ 1 / 1000000 := by
  refine ⟨List.mem_map_of_mem _ hv, ?_⟩
  have hs : (0 : ℝ) ≤ (v.map fun x => x * x).sum := by
    refine List.sum_nonneg ?_
    intro x hx
    obtain ⟨y, -, rfl⟩ := List.mem_map.mp hx
    exact mul_self_nonneg y
  have hl0 : (0 : ℝ) ≤ l2norm v := Real.sqrt_nonneg _
  have hcpos : (0 : ℝ) < l2norm v + 1 / 100000000 := by
    have : (0 : ℝ) < 1 / 100000000 := by norm_num
    linarith
  have hinv : (0 : ℝ) ≤ (l2norm v + 1 / 100000000)⁻¹ := inv_nonneg.mpr (le_of_lt hcpos)
  have hkey : l2norm (normalizeRow v) = l2norm v / (l2norm v + 1 / 100000000) := by
    unfold normalizeRow
    exact l2norm_map_div v (l2norm v + 1 / 100000000) (le_of_lt hcpos)
  rw [hkey, abs_le]
  constructor
  · have hlow : (1 : ℝ) - 1 / 1000000 ≤ l2norm v / (l2norm v + 1 / 100000000) := by
      rw [le_div_iff₀ hcpos]
      nlinarith [hnorm]
    linarith
  · have hup : l2norm v / (l2norm v + 1 / 100000000) ≤ 1 := by
      rw [div_le_one hcpos]
      linarith
    linarith

/-- Witness for the amended C9 at the one-component unit vector. -/
theorem normalization_within_tolerance_witness :
    (([(1 : ℝ)] ∈ [[(1 : ℝ)]]) ∧ 1 / 100 ≤ l2norm [(1 : ℝ)]) ∧
    (normalizeRow [(1 : ℝ)] ∈ normalizeBatch [[(1 : ℝ)]] ∧
      |l2norm (normalizeRow [(1 : ℝ)]) - 1| ≤ 1 / 1000000) := by
  have hmem : [(1 : ℝ)] ∈ [[(1 : ℝ)]] := by simp
  have hl : l2norm [(1 : ℝ)] = 1 := by
    unfold l2norm
    simp
  have hn : 1 / 100 ≤ l2norm [(1 : ℝ)] := by
    rw [hl]
    norm_num
  exact ⟨⟨hmem, hn⟩, normalization_within_tolerance [[(1 : ℝ)]] [(1 : ℝ)] hmem hn⟩

/-! ## Theorems: C10 -/

/-- Every character emitted by run-collapsing is a space or fails p. -/
theorem collapseAux_mem (p : Char → Bool) :
    ∀ (l : List Char) (b : Bool) (c : Char), c ∈ collapseAux p b l →
      c = ' ' ∨ p c = false := by
  intro l
  induction l with
  | nil => intro b c hc; simp [collapseAux] at hc
  | cons a t ih =>
    intro b c hc
    by_cases hp : p a = true
    · cases b with
      | true =>
        simp only [collapseAux, hp, if_true] at hc
        exact ih true c hc
      | false =>
        simp only [collapseAux, hp, if_true, if_false] at hc
        rcases List.mem_cons.mp hc with h | h
        · exact Or.inl h
        · exact ih true c h
    · have hp2 : p a = false := by simpa using hp
      simp only [collapseAux, hp2, Bool.false_eq_true, if_false] at hc
      rcases List.mem_cons.mp hc with h | h
      · exact Or.inr (h ▸ hp2)
      · exact ih false c h

/-- Inside a run (flag true), the next emitted character fails p. -/
theorem collapseAux_head_not (p : Char → Bool) :
    ∀ (l : List Char) (y : Char), (collapseAux p true l).head? = some y →
      p y = false := by
  intro l
  induction l with
  | nil => intro y hy; simp [collapseAux] at hy
  | cons a t ih =>
    intro y hy
    by_cases hp : p a = true
    · simp only [collapseAux, hp, if_true] at hy
      exact ih y hy
    · have hp2 : p a = false := by simpa using hp
      simp only [collapseAux, hp2, Bool.false_eq_true, if_false, List.head?_cons,
        Option.some.injEq] at hy
      exact hy ▸ hp2

/-- Run-collapsed output never has two adjacent p-characters. -/
theorem collapseAux_chain (p : Char → Bool) :
    ∀ (l : List Char) (b : Bool),
      List.Chain' (fun x y => p x = true → p y = false) (collapseAux p b l) := by
  intro l
  induction l with
  | nil => intro b; simp [collapseAux]
  | cons a t ih =>
    intro b
    by_cases hp : p a = true
    · cases b with
      | true =>
        simp only [collapseAux, hp, if_true]
        exact ih true
      | false =>
        simp only [collapseAux, hp, if_true, if_false]
        refine List.chain'_cons'.mpr ⟨?_, ih true⟩
        intro y hy _
        exact collapseAux_head_not p t y (Option.mem_def.mp hy)
    · have hp2 : p a = false := by simpa using hp
      simp only [collapseAux, hp2, Bool.false_eq_true, if_false]
      refine List.chain'_cons'.mpr ⟨?_, ih false⟩
      intro y _ hpa
      exact absurd hpa (by simp [hp2])

theorem ensureEnd_mem (l : List Char) (c : Char) (hc : c ∈ ensureEnd l) :
    c ∈ l ∨ c = '.' := by
  unfold ensureEnd at hc
  by_cases h : l ≠ [] ∧ endsPunct l = false
  · rw [if_pos h] at hc
    rcases List.mem_append.mp hc with h1 | h1
    · exact Or.inl h1
    · exact Or.inr (by simpa using h1)
  · rw [if_neg h] at hc
    exact Or.inl hc

theorem ensureEnd_chain (l : List Char)
    (hch : List.Chain' (fun x y => pyWs x = true → pyWs y = false) l) :
    List.Chain' (fun x y => pyWs x = true → pyWs y = false) (ensureEnd l) := by
  unfold ensureEnd
  by_cases h : l ≠ [] ∧ endsPunct l = false
  · rw [if_pos h]
    refine List.chain'_append.mpr ⟨hch, List.chain'_singleton _, ?_⟩
    intro x _ y hy _
    have hy2 : '.' = y := by simpa using hy
    rw [← hy2]
    decide
  · rw [if_neg h]
    exact hch

theorem rstripWs_front (m : List Char) : rstripWs m <+: m := by
  unfold rstripWs
  have h : m.reverse.dropWhile pyWs <:+ m.reverse := List.dropWhile_suffix pyWs
  conv_rhs => rw [← List.reverse_reverse m]
  exact Iff.mpr List.reverse_prefix h

theorem pyStrip_within (l : List Char) : pyStrip l <:+: l := by
  unfold pyStrip
  have h1 : lstripWs l <:+ l := List.dropWhile_suffix pyWs
  exact (rstripWs_front (lstripWs l)).isInfix.trans h1.isInfix

/-- rstrip is the identity on a list ending in a non-whitespace
character. -/
theorem rstripWs_of_last_not (l : List Char) (q : Char)
    (hq : l.getLast? = some q) (hws : pyWs q = false) : rstripWs l = l := by
  unfold rstripWs
  have hh : l.reverse.head? = some q := by rw [List.head?_reverse]; exact hq
  cases hrev : l.reverse with
  | nil => rw [hrev] at hh; simp at hh
  | cons a t =>
    rw [hrev] at hh
    simp only [List.head?_cons, Option.some.injEq] at hh
    rw [List.dropWhile_cons_of_neg (by rw [hh, hws]; exact Bool.false_ne_true),
      ← hrev, List.reverse_reverse]

/-- lstrip keeps the last character when it is non-whitespace. -/
theorem lstripWs_getLast? (l : List Char) (q : Char)
    (hq : l.getLast? = some q) (hws : pyWs q = false) :
    (lstripWs l).getLast? = some q := by
  unfold lstripWs
  obtain ⟨t, ht⟩ := (List.dropWhile_suffix pyWs : l.dropWhile pyWs <:+ l)
  by_cases hnil : l.dropWhile pyWs = []
  · exfalso
    have hall := List.dropWhile_eq_nil_iff.mp hnil
    have hqmem : q ∈ l := by
      obtain ⟨hne2, heq⟩ := List.mem_getLast?_eq_getLast (show q ∈ l.getLast? from hq)
      rw [heq]
      exact List.getLast_mem hne2
    have := hall q hqmem
    rw [hws] at this
    exact Bool.false_ne_true this
  · rw [← ht, List.getLast?_append_of_ne_nil t hnil] at hq
    exact hq

/-- Cleanliness of strip-after-punctuation applied to any run-collapsed
whitespace-normalized list. -/
theorem post_strip_clean (g : List Char)
    (hmem : ∀ c ∈ g, c = ' ' ∨ pyWs c = false)
    (hch : List.Chain' (fun x y => pyWs x = true → pyWs y = false) g) :
    (∀ c ∈ pyStrip (ensureEnd g), c ≠ '\n') ∧
    List.Chain' (fun a b => ¬(a = ' ' ∧ b = ' ')) (pyStrip (ensureEnd g)) ∧
    (pyStrip (ensureEnd g) ≠ [] →
      (pyStrip (ensureEnd g)).getLast? = some '.' ∨
      (pyStrip (ensureEnd g)).getLast? = some '!' ∨
      (pyStrip (ensureEnd g)).getLast? = some '?') := by
  have hinf : pyStrip (ensureEnd g) <:+: ensureEnd g := pyStrip_within _
  refine ⟨?_, ?_, ?_⟩
  · intro c hc
    have h2 := hinf.subset hc
    rcases ensureEnd_mem g c h2 with h3 | h3
    · rcases hmem c h3 with h4 | h4
      · rw [h4]; decide
      · intro hEq
        rw [hEq] at h4
        exact Bool.false_ne_true (by simpa [pyWs] using h4.symm)
    · rw [h3]; decide
  · refine ( List.Chain'.infix (ensureEnd_chain g hch) hinf).imp ?_
    intro a b hab
    rintro ⟨ha, hb⟩
    rw [ha, hb] at hab
    exact Bool.false_ne_true ((hab (by decide)).symm.trans (by decide))
  · intro hne
    by_cases hg : g = []
    · exfalso
      apply hne
      rw [hg]
      rfl
    · have hq : (ensureEnd g).getLast? = some '.' ∨
          (ensureEnd g).getLast? = some '!' ∨
          (ensureEnd g).getLast? = some '?' := by
        unfold ensureEnd
        by_cases hcond : g ≠ [] ∧ endsPunct g = false
        · rw [if_pos hcond, List.getLast?_concat]
          exact Or.inl rfl
        · rw [if_neg hcond]
          have hep : endsPunct g = true := by
            by_contra hneg
            exact hcond ⟨hg, by simpa using hneg⟩
          unfold endsPunct at hep
          simp only [Bool.or_eq_true, beq_iff_eq, or_assoc] at hep
          exact hep
      rcases hq with hq1 | hq1 | hq1
      · have h1 := lstripWs_getLast? (ensureEnd g) _ hq1 (by decide)
        have h2 := rstripWs_of_last_not (lstripWs (ensureEnd g)) _ h1 (by decide)
        refine Or.inl ?_
        show (rstripWs (lstripWs (ensureEnd g))).getLast? = some '.'
        rw [h2, h1]
      · have h1 := lstripWs_getLast? (ensureEnd g) _ hq1 (by decide)
        have h2 := rstripWs_of_last_not (lstripWs (ensureEnd g)) _ h1 (by decide)
        refine Or.inr (Or.inl ?_)
        show (rstripWs (lstripWs (ensureEnd g))).getLast? = some '!'
        rw [h2, h1]
      · have h1 := lstripWs_getLast? (ensureEnd g) _ hq1 (by decide)
        have h2 := rstripWs_of_last_not (lstripWs (ensureEnd g)) _ h1 (by decide)
        refine Or.inr (Or.inr ?_)
        show (rstripWs (lstripWs (ensureEnd g))).getLast? = some '?'
        rw [h2, h1]

/-- C10: the post-processed answer contains no newline and no two
consecutive spaces; when non-empty it ends with a period, exclamation or
question mark; and the empty answer is mapped to the empty answer. -/
theorem post_process_answer_clean (s : String) :
    (∀ c ∈ (post_process_answer s).data, c ≠ '\n') ∧
    List.Chain' (fun a b => ¬(a = ' ' ∧ b = ' ')) (post_process_answer s).data ∧
    (post_process_answer s ≠ "" →
      (post_process_answer s).data.getLast? = some '.' ∨
      (post_process_answer s).data.getLast? = some '!' ∨
      (post_process_answer s).data.getLast? = some '?') ∧
    post_process_answer "" = "" := by
  have hA := post_strip_clean
    (collapseRuns pyWs (collapseRuns (fun c => c == '\n') (strip_answer_head s.data)))
    (fun c hc => collapseAux_mem pyWs _ false c hc)
    (collapseAux_chain pyWs _ false)
  refine ⟨hA.1, hA.2.1, ?_, by decide⟩
  intro hne
  refine hA.2.2 ?_
  intro hdat
  apply hne
  show (⟨post_process_answer_chars s.data⟩ : String) = ""
  rw [show post_process_answer_chars s.data =
    pyStrip (ensureEnd (collapseRuns pyWs (collapseRuns (fun c => c == '\n')
      (strip_answer_head s.data)))) from rfl, hdat]

/-- Witness for C10 at a concrete messy answer, with the non-emptiness
antecedent discharged. -/
theorem post_process_answer_clean_witness :
    (post_process_answer "Answer:  hi\n\nthere" ≠ "") ∧
    (∀ c ∈ (post_process_answer "Answer:  hi\n\nthere").data, c ≠ '\n') ∧
    List.Chain' (fun a b => ¬(a = ' ' ∧ b = ' '))
      (post_process_answer "Answer:  hi\n\nthere").data ∧
    ((post_process_answer "Answer:  hi\n\nthere").data.getLast? = some '.' ∨
      (post_process_answer "Answer:  hi\n\nthere").data.getLast? = some '!' ∨
      (post_process_answer "Answer:  hi\n\nthere").data.getLast? = some '?') ∧
    post_process_answer "" = "" := by
  have hne : post_process_answer "Answer:  hi\n\nthere" ≠ "" := by decide
  obtain ⟨h1, h2, h3, h4⟩ := post_process_answer_clean "Answer:  hi\n\nthere"
  exact ⟨hne, h1, h2, h3 hne, h4⟩

end RagSpec
